import Mathlib

/-!
Shallow embedding of the pzem004t PZEM004T energy-monitor driver
(src/lib.rs, src/io.rs, src/no_timeout.rs).

Modelling conventions:
* Machine integers (u8, u16, u32) are `Nat` with explicit `% 2 ^ w` or `% 256`
  where Rust performs a truncating cast; values produced by the driver itself
  stay in range by construction.
* The `f32` fields of `Measurement` are modelled as exact rationals: the Rust
  code computes an integer and divides by a constant, which we mirror with
  rational division.
* The serial line (embedded-hal non-blocking primitives) is modelled as a
  finite list of read events: each call of `Serial::read` consumes the next
  event, which is WouldBlock, a hard error, or a byte.  An exhausted list
  behaves as a silent line (WouldBlock forever).  The write side
  (`write_blocking` + `flush`) is modelled by an optional error: `none` means
  every byte write and the flush succeed, `some e` means the write phase fails
  with error `e`.
* The countdown timer (`timer::CountDown`) is a list of Booleans, one per
  `wait()` poll: `false` is WouldBlock (not yet expired), `true` is `Ok(())`
  (expired).  An exhausted list is treated as expired, since a real countdown
  eventually expires; `wait()` can never return a hard error (its error type
  is `Void`).
-/

namespace Pzem004t

/-- Constant ADDR_DEFAULT from src/lib.rs: universal address for a
single-slave environment. -/
def ADDR_DEFAULT : Nat := 0xf8

/-- Constant ADDR_MIN from src/lib.rs. -/
def ADDR_MIN : Nat := 0x01

/-- Constant ADDR_MAX from src/lib.rs. -/
def ADDR_MAX : Nat := 0xf7

/-- Constant CMD_READ from src/lib.rs: read the measurement registers. -/
def CMD_READ : Nat := 0x04

/-- Constant CMD_RESET from src/lib.rs: reset the energy counter. -/
def CMD_RESET : Nat := 0x42

/-- Constant CMD_READ_PARAM from src/lib.rs: read the slave parameters. -/
def CMD_READ_PARAM : Nat := 0x03

/-- Constant CMD_WRITE_PARAM from src/lib.rs: write the slave parameters. -/
def CMD_WRITE_PARAM : Nat := 0x06

/-- Constant PARAM_THRESHOLD from src/lib.rs: power alarm threshold. -/
def PARAM_THRESHOLD : Nat := 0x0001

/-- Constant PARAM_ADDR from src/lib.rs: Modbus-RTU address parameter. -/
def PARAM_ADDR : Nat := 0x0002

/-- Constant REG_COUNT from src/lib.rs: 10 registers in total. -/
def REG_COUNT : Nat := 10

/-- One shift round of the reflected CRC16 used by the crc16 crate's MODBUS
variant: polynomial 0xA001 (reverse of 0x8005). -/
def crcRound (c : Nat) : Nat :=
  if c % 2 = 1 then c / 2 ^^^ 0xA001 else c / 2

/-- Processing one input byte: xor it into the state, then run eight shift
rounds.  This is the bitwise definition of the table-driven update performed
by crc16::State::<crc16::MODBUS>. -/
def crcByte (c b : Nat) : Nat := crcRound^[8] (c ^^^ b)

/-- CRC16 of a byte sequence starting from a given seed. -/
def crc16 (seed : Nat) (data : List Nat) : Nat := data.foldl crcByte seed

/-- CRC16/MODBUS (seed 0xFFFF, polynomial 0xA001, no final xor), the value of
crc16::State::<crc16::MODBUS>::calculate in src/lib.rs.  Checked against the
standard test vector: modbus of the ASCII digits 1..9 is 0x4B37. -/
def modbus (data : List Nat) : Nat := crc16 0xFFFF data

/-- Byte swap of a 16-bit value. -/
def swap16 (x : Nat) : Nat := x % 256 * 256 + x / 256

/-- Rust u16::to_be.  On the little-endian targets this crate is built for
(for example the stm32f1xx Cortex-M3 board of the bundled example) this swaps
the two bytes. -/
def u16_to_be (x : Nat) : Nat := swap16 x

/-- Rust u16::from_be, likewise a byte swap on a little-endian target. -/
def u16_from_be (x : Nat) : Nat := swap16 x

/-- crc_write from src/lib.rs: computes u16::to_be of the MODBUS CRC over all
bytes except the last two, then stores its high half at index n-2 and its low
half at index n-1 (the casts `(crc >> 8) as u8` and `crc as u8` are `/ 256`
and `% 256`; the shifted value is already below 256). -/
def crc_write (buf : List Nat) : List Nat :=
  let n := buf.length
  let crc := u16_to_be (modbus (buf.take (n - 2)))
  (buf.set (n - 2) (crc / 256)).set (n - 1) (crc % 256)

/-- crc_check from src/lib.rs: recomputes u16::from_be of the MODBUS CRC over
all bytes except the last two and compares its two halves with the stored
trailing bytes. -/
def crc_check (buf : List Nat) : Bool :=
  let n := buf.length
  let crc := u16_from_be (modbus (buf.take (n - 2)))
  (crc / 256 == buf.getD (n - 2) 0) && (crc % 256 == buf.getD (n - 1) 0)

/-- Measurement record from src/lib.rs.  The f32 fields are modelled as exact
rationals (the code divides an integer by a fixed power of ten). -/
structure Measurement where
  voltage : ℚ
  current : ℚ
  power : ℚ
  energy : ℚ
  frequency : ℚ
  pf : ℚ
  alarm : Bool
deriving DecidableEq

/-- Measurement::default(): every numeric field zero, alarm false. -/
def Measurement.default : Measurement := ⟨0, 0, 0, 0, 0, 0, false⟩

/-- result_convert from src/lib.rs: decodes the 25-byte measurement response.
The Rust function assigns every one of the seven fields of the output record,
so the previous contents are ignored. -/
def result_convert (buf : List Nat) (_m : Measurement) : Measurement :=
  { voltage := ((buf.getD 3 0 <<< 8 ||| buf.getD 4 0 : Nat) : ℚ) / 10
    current := ((buf.getD 5 0 <<< 8 ||| buf.getD 6 0 <<< 0 |||
                 buf.getD 7 0 <<< 24 ||| buf.getD 8 0 <<< 16 : Nat) : ℚ) / 1000
    power := ((buf.getD 9 0 <<< 8 ||| buf.getD 10 0 <<< 0 |||
               buf.getD 11 0 <<< 24 ||| buf.getD 12 0 <<< 16 : Nat) : ℚ) / 10
    energy := ((buf.getD 13 0 <<< 8 ||| buf.getD 14 0 <<< 0 |||
                buf.getD 15 0 <<< 24 ||| buf.getD 16 0 <<< 16 : Nat) : ℚ) / 1000
    frequency := ((buf.getD 17 0 <<< 8 ||| buf.getD 18 0 <<< 0 : Nat) : ℚ) / 10
    pf := ((buf.getD 19 0 <<< 8 ||| buf.getD 20 0 <<< 0 : Nat) : ℚ) / 100
    alarm := (buf.getD 21 0 <<< 8 ||| buf.getD 22 0 <<< 0) != 0 }

/-- One event on the receiving side of the serial line: what one call of the
non-blocking Serial::read returns. -/
inductive ReadEvent (RE : Type) where
  | wouldBlock : ReadEvent RE
  | errE (e : RE) : ReadEvent RE
  | byte (b : Nat) : ReadEvent RE
deriving DecidableEq

/-- Result of read_blocking: the bytes stored into the buffer (the returned
count is their number), a hard read error, or an indefinite block (the finite
event list ran out while more bytes were required and no timeout bounds the
wait). -/
inductive RBResult (RE : Type) where
  | ok (bytes : List Nat) : RBResult RE
  | err (e : RE) : RBResult RE
  | hang : RBResult RE
deriving DecidableEq

/-- The timeout-less branch of ReadBlocking::read_blocking in src/io.rs:
`buf[i] = block!(self.read())?` repeated until the buffer is full.  WouldBlock
events are retried, a hard error is returned at once, and an exhausted event
list means the loop blocks forever. -/
def collectBytes {RE : Type} : List (ReadEvent RE) → Nat → RBResult RE
  | _, 0 => .ok []
  | [], _ + 1 => .hang
  | .wouldBlock :: rs, n + 1 => collectBytes rs (n + 1)
  | .errE e :: _, _ + 1 => .err e
  | .byte b :: rs, n + 1 =>
    match collectBytes rs n with
    | .ok l => .ok (b :: l)
    | r => r

/-- The timed branch of ReadBlocking::read_blocking in src/io.rs.  The first
argument is the list of timer.wait() outcomes; the returned Nat counts how
many times wait() was invoked.  Every loop iteration polls the timer first:
on expiry the loop breaks and the bytes accumulated so far are returned; on
WouldBlock exactly one non-blocking read is attempted (hard error returns
immediately, WouldBlock continues, a byte is stored). -/
def readTimed {RE : Type} : List Bool → List (ReadEvent RE) → Nat → RBResult RE × Nat
  | _, _, 0 => (.ok [], 0)
  | [], _, _ + 1 => (.ok [], 1)
  | true :: _, _, _ + 1 => (.ok [], 1)
  | false :: ts, [], n + 1 =>
    let r := readTimed ts [] (n + 1)
    (r.1, r.2 + 1)
  | false :: ts, .wouldBlock :: rs, n + 1 =>
    let r := readTimed ts rs (n + 1)
    (r.1, r.2 + 1)
  | false :: _, .errE e :: _, _ + 1 => (.err e, 1)
  | false :: ts, .byte b :: rs, n + 1 =>
    let r := readTimed ts rs n
    (match r.1 with | .ok l => .ok (b :: l) | x => x, r.2 + 1)

/-- ReadBlocking::read_blocking from src/io.rs.  The second component counts
the timer method invocations performed: zero when the timeout is absent (the
else-branch of the Rust code contains no timer call, so a NoTimeout stand-in
is never touched), and one start() plus all wait() polls when a timeout is
supplied.  The Rust function returns the count `i as u8`; every call site
passes a buffer of at most 25 bytes, so the cast never truncates and we keep
the count as the length of the returned byte list. -/
def read_blocking {RE : Type} (timeout : Option (List Bool))
    (reads : List (ReadEvent RE)) (n : Nat) : RBResult RE × Nat :=
  match timeout with
  | none => (collectBytes reads n, 0)
  | some ts =>
    let r := readTimed ts reads n
    (r.1, r.2 + 1)

/-- Drain::drain from src/io.rs: non-blockingly consume pending input until
the line reports WouldBlock; a hard error is propagated.  Returns the
remaining (unconsumed) events. -/
def drain {RE : Type} : List (ReadEvent RE) → Except RE (List (ReadEvent RE))
  | [] => .ok []
  | .wouldBlock :: rs => .ok rs
  | .errE e :: _ => .error e
  | .byte _ :: rs => drain rs

/-- Error enumeration from src/lib.rs. -/
inductive Error (WE RE : Type) where
  | TimedOut : Error WE RE
  | CrcMismatch : Error WE RE
  | PzemError : Error WE RE
  | IllegalAddress : Error WE RE
  | WriteError (e : WE) : Error WE RE
  | ReadError (e : RE) : Error WE RE
deriving DecidableEq

/-- Observable outcome of a driver call: success, a driver error, or an
indefinite block (possible only without a timeout on a silent line). -/
inductive Outcome (WE RE α : Type) where
  | ok (a : α) : Outcome WE RE α
  | err (e : Error WE RE) : Outcome WE RE α
  | hang : Outcome WE RE α
deriving DecidableEq

/-- The serial line as seen by one exchange: the outcome of the write phase
(write_blocking of the request plus flush; `none` means success) and the
pending read events, consumed first by drain and then by read_blocking. -/
structure Wire (WE RE : Type) where
  writeOutcome : Option WE
  reads : List (ReadEvent RE)

/-- Pzem::communicate from src/lib.rs: drain stale input, write the request,
flush, read exactly respLen bytes (the expected response length), then
validate: a short read is TimedOut, an address/function-code echo mismatch is
PzemError, a CRC failure (including the 4-byte fast path comparing against
the request CRC bytes) is CrcMismatch. -/
def communicate {WE RE : Type} (req : List Nat) (respLen : Nat)
    (timeout : Option (List Bool)) (w : Wire WE RE) : Outcome WE RE (List Nat) :=
  match drain w.reads with
  | .error e => .err (.ReadError e)
  | .ok rs =>
    match w.writeOutcome with
    | some e => .err (.WriteError e)
    | none =>
      match (read_blocking timeout rs respLen).1 with
      | .err e => .err (.ReadError e)
      | .hang => .hang
      | .ok resp =>
        if resp.length < respLen then .err .TimedOut
        else if resp.getD 0 0 ≠ req.getD 0 0 ∨ resp.getD 1 0 ≠ req.getD 1 0 then
          .err .PzemError
        else if resp.length = 4 ∧ (resp.getD 2 0 ≠ req.getD 2 0 ∨ resp.getD 3 0 ≠ req.getD 3 0) then
          .err .CrcMismatch
        else if ¬ crc_check resp then .err .CrcMismatch
        else .ok resp

/-- Pzem::new from src/lib.rs.  Pure address validation: the constructor
performs no serial I/O (it only stores the peripheral and the address).
Returns the stored handle address on success. -/
def Pzem.new (WE RE : Type) (addr : Option Nat) : Except (Error WE RE) Nat :=
  let a := addr.getD ADDR_DEFAULT
  if a ≠ ADDR_DEFAULT ∧ (a < ADDR_MIN ∨ ADDR_MAX < a) then .error .IllegalAddress
  else .ok a

/-- Pzem::read from src/lib.rs.  Takes the handle address and the
caller-supplied measurement record; returns the call outcome, the handle
address after the call, and the measurement record after the call.  The Rust
code builds the CRC-stamped 8-byte read request, exchanges it for a 25-byte
response, and only on success runs result_convert on the response. -/
def Pzem.read {WE RE : Type} (addr : Nat) (m : Measurement)
    (timeout : Option (List Bool)) (w : Wire WE RE) :
    Outcome WE RE Unit × Nat × Measurement :=
  let req := crc_write [addr, CMD_READ, 0, 0,
    (REG_COUNT >>> 8) % 256, (REG_COUNT >>> 0) % 256, 0, 0]
  match communicate req 25 timeout w with
  | .ok resp => (.ok (), addr, result_convert resp m)
  | .err e => (.err e, addr, m)
  | .hang => (.hang, addr, m)

/-- Pzem::get_threshold from src/lib.rs: reads parameter 0x0001, returns the
big-endian u16 at response offsets 3-4. -/
def Pzem.get_threshold {WE RE : Type} (addr : Nat)
    (timeout : Option (List Bool)) (w : Wire WE RE) : Outcome WE RE Nat × Nat :=
  let req := crc_write [addr, CMD_READ_PARAM,
    (PARAM_THRESHOLD >>> 8) % 256, (PARAM_THRESHOLD >>> 0) % 256, 0, 1, 0, 0]
  match communicate req 7 timeout w with
  | .ok resp => (.ok (resp.getD 3 0 <<< 8 ||| resp.getD 4 0 <<< 0), addr)
  | .err e => (.err e, addr)
  | .hang => (.hang, addr)

/-- Pzem::get_addr from src/lib.rs: reads parameter 0x0002, returns the
big-endian u16 at response offsets 3-4. -/
def Pzem.get_addr {WE RE : Type} (addr : Nat)
    (timeout : Option (List Bool)) (w : Wire WE RE) : Outcome WE RE Nat × Nat :=
  let req := crc_write [addr, CMD_READ_PARAM,
    (PARAM_ADDR >>> 8) % 256, (PARAM_ADDR >>> 0) % 256, 0, 1, 0, 0]
  match communicate req 7 timeout w with
  | .ok resp => (.ok (resp.getD 3 0 <<< 8 ||| resp.getD 4 0 <<< 0), addr)
  | .err e => (.err e, addr)
  | .hang => (.hang, addr)

/-- Pzem::set_threshold from src/lib.rs: writes parameter 0x0001 with the new
threshold value, expecting an 8-byte echo. -/
def Pzem.set_threshold {WE RE : Type} (addr threshold : Nat)
    (timeout : Option (List Bool)) (w : Wire WE RE) : Outcome WE RE Unit × Nat :=
  let req := crc_write [addr, CMD_WRITE_PARAM,
    (PARAM_THRESHOLD >>> 8) % 256, (PARAM_THRESHOLD >>> 0) % 256,
    (threshold >>> 8) % 256, (threshold >>> 0) % 256, 0, 0]
  match communicate req 8 timeout w with
  | .ok _ => (.ok (), addr)
  | .err e => (.err e, addr)
  | .hang => (.hang, addr)

/-- Pzem::set_addr from src/lib.rs: validates the new address against
ADDR_MIN..ADDR_MAX before any I/O, writes parameter 0x0002, and assigns the
new address to the handle only after the exchange succeeds. -/
def Pzem.set_addr {WE RE : Type} (addr a : Nat)
    (timeout : Option (List Bool)) (w : Wire WE RE) : Outcome WE RE Unit × Nat :=
  if a < ADDR_MIN ∨ ADDR_MAX < a then (.err .IllegalAddress, addr)
  else
    let req := crc_write [addr, CMD_WRITE_PARAM,
      (PARAM_ADDR >>> 8) % 256, (PARAM_ADDR >>> 0) % 256, 0, a, 0, 0]
    match communicate req 8 timeout w with
    | .ok _ => (.ok (), a)
    | .err e => (.err e, addr)
    | .hang => (.hang, addr)

/-- Pzem::reset_energy from src/lib.rs: a 4-byte request, 4-byte echo. -/
def Pzem.reset_energy {WE RE : Type} (addr : Nat)
    (timeout : Option (List Bool)) (w : Wire WE RE) : Outcome WE RE Unit × Nat :=
  let req := crc_write [addr, CMD_RESET, 0, 0]
  match communicate req 4 timeout w with
  | .ok _ => (.ok (), addr)
  | .err e => (.err e, addr)
  | .hang => (.hang, addr)

/-- Recognizer for byte events, used to count bytes delivered by the line. -/
def isByteEv {RE : Type} : ReadEvent RE → Bool
  | .byte _ => true
  | _ => false

/-- Big-endian 16-bit word at a byte offset, following the wording of the
specification for the measurement layout (spec 4.2 decode_measurement). -/
def specWord16 (buf : List Nat) (i : Nat) : Nat :=
  buf.getD i 0 <<< 8 ||| buf.getD (i + 1) 0

/-- The 32-bit quantity described by the specification for current, power and
energy: two consecutive big-endian 16-bit words, the second shifted left by
16 and combined with the first. -/
def spec32 (buf : List Nat) (lo hi : Nat) : Nat :=
  specWord16 buf hi <<< 16 ||| specWord16 buf lo

/-- Concrete 25-byte measurement response used as the decoding example:
voltage bytes (offsets 3-4) are 0x09 0x08. -/
def vExample : List Nat :=
  [0xf8, 0x04, 20, 0x09, 0x08, 0, 0, 0, 0, 0, 0, 0, 0,
   0, 0, 0, 0, 0, 0, 0, 0, 0, 0, 0, 0]

/-! List helper lemmas about set, take and getD. -/

theorem getD_set_self {α : Type} (l : List α) (i : Nat) (v d : α) (h : i < l.length) :
    (l.set i v).getD i d = v := by
  simp [List.getD_eq_getElem?_getD, List.getElem?_set_self, h]

theorem getD_set_ne {α : Type} (l : List α) (i j : Nat) (v d : α) (h : i ≠ j) :
    (l.set i v).getD j d = l.getD j d := by
  simp [List.getD_eq_getElem?_getD, List.getElem?_set_ne h]

theorem take_set_of_le {α : Type} (l : List α) (i j : Nat) (v : α) (h : j ≤ i) :
    (l.set i v).take j = l.take j := by
  apply List.ext_getElem?
  intro k
  rcases Nat.lt_or_ge k j with hk | hk
  · rw [List.getElem?_take_of_lt hk, List.getElem?_take_of_lt hk,
      List.getElem?_set_ne (by omega)]
  · have h1 : ((l.set i v).take j)[k]? = none := List.getElem?_eq_none (by simp; omega)
    have h2 : (l.take j)[k]? = none := List.getElem?_eq_none (by simp; omega)
    rw [h1, h2]

theorem take_set_comm {α : Type} (l : List α) (i j : Nat) (v : α) (h : i < j) :
    (l.set i v).take j = (l.take j).set i v := by
  apply List.ext_getElem?
  intro k
  rcases Nat.lt_or_ge k j with hk | hk
  · rw [List.getElem?_take_of_lt hk]
    rcases eq_or_ne i k with rfl | hik
    · rcases Nat.lt_or_ge i l.length with hil | hil
      · rw [List.getElem?_set_self (by simpa using hil),
          List.getElem?_set_self (by simp; omega)]
      · rw [List.set_eq_of_length_le (by omega), List.set_eq_of_length_le (by simp; omega),
          List.getElem?_take_of_lt hk]
    · rw [List.getElem?_set_ne hik, List.getElem?_set_ne hik, List.getElem?_take_of_lt hk]
  · have h1 : ((l.set i v).take j)[k]? = none := List.getElem?_eq_none (by simp; omega)
    have h2 : (((l.take j).set i v))[k]? = none := List.getElem?_eq_none (by simp; omega)
    rw [h1, h2]

theorem getD_take_of_lt {α : Type} (l : List α) (i j : Nat) (d : α) (h : i < j) :
    (l.take j).getD i d = l.getD i d := by
  simp [List.getD_eq_getElem?_getD, List.getElem?_take_of_lt h]

/-! Arithmetic facts about the CRC16/MODBUS computation: every state stays
below 2^16 and every update is injective, which is what makes single-bit
corruption always detectable. -/

theorem xor_lt_65536 {a b : Nat} (ha : a < 65536) (hb : b < 65536) : a ^^^ b < 65536 := by
  have h16 : (65536 : Nat) = 2 ^ 16 := by norm_num
  rw [h16] at ha hb ⊢
  exact Nat.xor_lt_two_pow ha hb

theorem xor_cancel_left_nat (c : Nat) : ∀ x : Nat, c ^^^ (c ^^^ x) = x := fun x => by
  rw [← Nat.xor_assoc, Nat.xor_self, Nat.zero_xor]

theorem xor_cancel_right_nat (c : Nat) : ∀ x : Nat, x ^^^ c ^^^ c = x := fun x => by
  rw [Nat.xor_assoc, Nat.xor_self, Nat.xor_zero]

theorem crcRound_lt (c : Nat) (h : c < 65536) : crcRound c < 65536 := by
  unfold crcRound
  split
  · exact xor_lt_65536 (by omega) (by norm_num)
  · omega

theorem crcRound_inj (a b : Nat) (ha : a < 65536) (hb : b < 65536)
    (h : crcRound a = crcRound b) : a = b := by
  have key : ∀ x y : Nat, x < 65536 → y < 65536 →
      y / 2 ≠ x / 2 ^^^ 0xA001 := by
    intro x y hx hy
    intro he
    have h15 : (2 : Nat) ^ 15 = 32768 := by norm_num
    have hxb : (x / 2 ^^^ 0xA001).testBit 15 = true := by
      rw [Nat.testBit_xor]
      have hxlt : (x / 2).testBit 15 = false := by
        apply Nat.testBit_lt_two_pow
        omega
      rw [hxlt]
      decide
    have hyb : (y / 2).testBit 15 = true := by rw [he]; exact hxb
    have hge := Nat.testBit_implies_ge hyb
    omega
  unfold crcRound at h
  rcases Nat.mod_two_eq_zero_or_one a with ha2 | ha2 <;>
    rcases Nat.mod_two_eq_zero_or_one b with hb2 | hb2
  · rw [if_neg (by omega), if_neg (by omega)] at h
    omega
  · rw [if_neg (by omega), if_pos hb2] at h
    exact absurd h (key b a hb ha)
  · rw [if_pos ha2, if_neg (by omega)] at h
    exact absurd h.symm (key a b ha hb)
  · rw [if_pos ha2, if_pos hb2] at h
    have h2 : a / 2 = b / 2 := by
      have := congrArg (· ^^^ 0xA001) h
      simpa [Nat.xor_assoc, Nat.xor_self, Nat.xor_zero] using this
    omega

theorem crcIter_lt : ∀ (k c : Nat), c < 65536 → crcRound^[k] c < 65536
  | 0, _, h => h
  | k + 1, c, h => by
    rw [Function.iterate_succ_apply]
    exact crcIter_lt k (crcRound c) (crcRound_lt c h)

theorem crcIter_inj : ∀ (k a b : Nat), a < 65536 → b < 65536 →
    crcRound^[k] a = crcRound^[k] b → a = b
  | 0, _, _, _, _, h => h
  | k + 1, a, b, ha, hb, h => by
    rw [Function.iterate_succ_apply, Function.iterate_succ_apply] at h
    exact crcRound_inj a b ha hb
      (crcIter_inj k _ _ (crcRound_lt a ha) (crcRound_lt b hb) h)

theorem crcByte_lt (c b : Nat) (hc : c < 65536) (hb : b < 65536) : crcByte c b < 65536 :=
  crcIter_lt 8 _ (xor_lt_65536 hc hb)

theorem crcByte_inj_left (c₁ c₂ b : Nat) (h1 : c₁ < 65536) (h2 : c₂ < 65536)
    (hb : b < 65536) (h : crcByte c₁ b = crcByte c₂ b) : c₁ = c₂ := by
  have he := crcIter_inj 8 _ _ (xor_lt_65536 h1 hb) (xor_lt_65536 h2 hb) h
  have := congrArg (fun x => x ^^^ b) he
  simpa [Nat.xor_assoc, Nat.xor_self, Nat.xor_zero] using this

theorem crcByte_inj_right (c b₁ b₂ : Nat) (hc : c < 65536) (h1 : b₁ < 65536)
    (h2 : b₂ < 65536) (h : crcByte c b₁ = crcByte c b₂) : b₁ = b₂ := by
  have he := crcIter_inj 8 _ _ (xor_lt_65536 hc h1) (xor_lt_65536 hc h2) h
  have := congrArg (fun x => c ^^^ x) he
  simpa [xor_cancel_left_nat] using this

theorem crc16_cons (s d : Nat) (ds : List Nat) :
    crc16 s (d :: ds) = crc16 (crcByte s d) ds := rfl

theorem crc16_lt : ∀ (data : List Nat) (s : Nat), s < 65536 →
    (∀ x ∈ data, x < 65536) → crc16 s data < 65536
  | [], _, hs, _ => hs
  | d :: ds, s, hs, hd => by
    rw [crc16_cons]
    exact crc16_lt ds (crcByte s d) (crcByte_lt s d hs (hd d (by simp)))
      (fun x hx => hd x (by simp [hx]))

theorem crc16_inj_seed : ∀ (data : List Nat) (s₁ s₂ : Nat), s₁ < 65536 → s₂ < 65536 →
    (∀ x ∈ data, x < 65536) → s₁ ≠ s₂ → crc16 s₁ data ≠ crc16 s₂ data
  | [], _, _, _, _, _, hne => hne
  | d :: ds, s₁, s₂, h1, h2, hd, hne => by
    rw [crc16_cons, crc16_cons]
    have hdb : d < 65536 := hd d (by simp)
    exact crc16_inj_seed ds _ _ (crcByte_lt s₁ d h1 hdb) (crcByte_lt s₂ d h2 hdb)
      (fun x hx => hd x (by simp [hx]))
      (fun he => hne (crcByte_inj_left s₁ s₂ d h1 h2 hdb he))

theorem crc16_set_ne : ∀ (data : List Nat) (i v s : Nat), s < 65536 →
    (∀ x ∈ data, x < 65536) → v < 65536 → i < data.length → v ≠ data.getD i 0 →
    crc16 s (data.set i v) ≠ crc16 s data
  | [], i, _, _, _, _, _, hi, _ => absurd hi (by simp)
  | d :: ds, 0, v, s, hs, hd, hv, _, hne => by
    show crc16 s (v :: ds) ≠ crc16 s (d :: ds)
    rw [crc16_cons, crc16_cons]
    have hdb : d < 65536 := hd d (by simp)
    exact crc16_inj_seed ds _ _ (crcByte_lt s v hs hv) (crcByte_lt s d hs hdb)
      (fun x hx => hd x (by simp [hx]))
      (fun he => hne (crcByte_inj_right s v d hs hv hdb he))
  | d :: ds, i + 1, v, s, hs, hd, hv, hi, hne => by
    show crc16 s (d :: ds.set i v) ≠ crc16 s (d :: ds)
    rw [crc16_cons, crc16_cons]
    have hdb : d < 65536 := hd d (by simp)
    exact crc16_set_ne ds i v _ (crcByte_lt s d hs hdb)
      (fun x hx => hd x (by simp [hx])) hv (by simpa using hi) (by simpa using hne)

theorem modbus_lt (data : List Nat) (hd : ∀ x ∈ data, x < 65536) : modbus data < 65536 :=
  crc16_lt data 0xFFFF (by norm_num) hd

theorem modbus_set_ne (data : List Nat) (i v : Nat) (hd : ∀ x ∈ data, x < 65536)
    (hv : v < 65536) (hi : i < data.length) (hne : v ≠ data.getD i 0) :
    modbus (data.set i v) ≠ modbus data :=
  crc16_set_ne data i v 0xFFFF (by norm_num) hd hv hi hne

/-! Structural facts about crc_write and crc_check. -/

theorem crc_write_length (buf : List Nat) : (crc_write buf).length = buf.length := by
  simp [crc_write]

theorem crc_write_take (buf : List Nat) :
    (crc_write buf).take (buf.length - 2) = buf.take (buf.length - 2) := by
  unfold crc_write
  rw [take_set_of_le _ _ _ _ (by omega), take_set_of_le _ _ _ _ (by omega)]

theorem crc_write_getD_sub2 (buf : List Nat) (h : 2 ≤ buf.length) :
    (crc_write buf).getD (buf.length - 2) 0
      = swap16 (modbus (buf.take (buf.length - 2))) / 256 := by
  unfold crc_write u16_to_be
  rw [getD_set_ne _ _ _ _ _ (by omega), getD_set_self _ _ _ _ (by omega)]

theorem crc_write_getD_sub1 (buf : List Nat) (h : 1 ≤ buf.length) :
    (crc_write buf).getD (buf.length - 1) 0
      = swap16 (modbus (buf.take (buf.length - 2))) % 256 := by
  unfold crc_write u16_to_be
  rw [getD_set_self _ _ _ _ (by simp; omega)]

theorem crc_write_getD_data (buf : List Nat) (i : Nat) (h : i < buf.length - 2) :
    (crc_write buf).getD i 0 = buf.getD i 0 := by
  unfold crc_write
  rw [getD_set_ne _ _ _ _ _ (by omega), getD_set_ne _ _ _ _ _ (by omega)]

theorem swap16_div (x : Nat) (h : x < 65536) : swap16 x / 256 = x % 256 := by
  unfold swap16
  omega

theorem swap16_mod (x : Nat) (h : x < 65536) : swap16 x % 256 = x / 256 := by
  unfold swap16
  omega

theorem crc_check_iff (l : List Nat) (hc : modbus (l.take (l.length - 2)) < 65536) :
    crc_check l = true ↔
      l.getD (l.length - 2) 0 = modbus (l.take (l.length - 2)) % 256 ∧
      l.getD (l.length - 1) 0 = modbus (l.take (l.length - 2)) / 256 := by
  simp only [crc_check, u16_from_be]
  rw [swap16_div _ hc, swap16_mod _ hc]
  rw [Bool.and_eq_true, beq_iff_eq, beq_iff_eq]
  omega

/-- Claim C6: CRC round-trip.  For every byte buffer of length at least 3,
writing the CRC with crc_write and then verifying the identical bytes with
crc_check always validates. -/
theorem claim_C6 (buf : List Nat) (h : 3 ≤ buf.length) :
    crc_check (crc_write buf) = true := by
  simp only [crc_check, u16_from_be]
  rw [crc_write_length, crc_write_take,
    crc_write_getD_sub2 _ (by omega), crc_write_getD_sub1 _ (by omega)]
  simp

set_option maxRecDepth 8000 in
theorem claim_C6_witness :
    3 ≤ ([1, 4, 0, 0, 0, 10, 0, 0] : List Nat).length ∧
      crc_check (crc_write [1, 4, 0, 0, 0, 10, 0, 0]) = true :=
  ⟨by decide, claim_C6 [1, 4, 0, 0, 0, 10, 0, 0] (by decide)⟩

set_option maxRecDepth 8000 in
/-- Claim C7, counterexample: the claim states that after crc_write the byte
at position n-2 is the HIGH byte of the CRC16/MODBUS of the preceding bytes.
On the request frame for reading measurements from address 0x01 the CRC over
the first six bytes is 0x0D70, and crc_write stores 0x70 (the low byte) at
position 6, not 0x0D. -/
theorem claim_C7_counterexample :
    ¬ ((crc_write [1, 4, 0, 0, 0, 10, 0, 0]).getD 6 0
        = modbus ((crc_write [1, 4, 0, 0, 0, 10, 0, 0]).take 6) / 256) := by
  decide

/-- Claim C7 as amended: on the little-endian targets the crate is built for,
u16::to_be byte-swaps the CRC, so crc_write stores the LOW byte of the
CRC16/MODBUS value at position n-2 and the HIGH byte at position n-1 — the
standard MODBUS wire order [CRC low][CRC high]. -/
theorem claim_C7_amended (buf : List Nat) (h : 3 ≤ buf.length)
    (hb : ∀ x ∈ buf, x < 256) :
    (crc_write buf).getD (buf.length - 2) 0
        = modbus (buf.take (buf.length - 2)) % 256 ∧
      (crc_write buf).getD (buf.length - 1) 0
        = modbus (buf.take (buf.length - 2)) / 256 := by
  have hlt : modbus (buf.take (buf.length - 2)) < 65536 :=
    modbus_lt _ (fun x hx => by
      have := hb x (List.take_subset _ _ hx)
      omega)
  rw [crc_write_getD_sub2 _ (by omega), crc_write_getD_sub1 _ (by omega),
    swap16_div _ hlt, swap16_mod _ hlt]
  exact ⟨rfl, rfl⟩

set_option maxRecDepth 8000 in
theorem claim_C7_witness :
    (3 ≤ ([1, 4, 0, 0, 0, 10, 0, 0] : List Nat).length ∧
        ∀ x ∈ ([1, 4, 0, 0, 0, 10, 0, 0] : List Nat), x < 256) ∧
      (crc_write [1, 4, 0, 0, 0, 10, 0, 0]).getD 6 0
          = modbus (([1, 4, 0, 0, 0, 10, 0, 0] : List Nat).take 6) % 256 ∧
        (crc_write [1, 4, 0, 0, 0, 10, 0, 0]).getD 7 0
          = modbus (([1, 4, 0, 0, 0, 10, 0, 0] : List Nat).take 6) / 256 :=
  ⟨⟨by decide, by decide⟩,
    claim_C7_amended [1, 4, 0, 0, 0, 10, 0, 0] (by decide) (by decide)⟩

theorem getD_lt_of_forall (l : List Nat) (i c : Nat) (h : ∀ x ∈ l, x < c)
    (hi : i < l.length) : l.getD i 0 < c := by
  rw [List.getD_eq_getElem l 0 hi]
  exact h _ (List.getElem_mem hi)

theorem forall_lt_of_set (l : List Nat) (i v c : Nat) (hl : ∀ x ∈ l, x < c)
    (hv : v < c) : ∀ x ∈ l.set i v, x < c := by
  intro x hx
  rcases List.mem_or_eq_of_mem_set hx with h | rfl
  · exact hl x h
  · exact hv

theorem xor_two_pow_ne (a j : Nat) : a ^^^ 2 ^ j ≠ a := by
  intro h
  have h2 := congrArg (fun x => a ^^^ x) h
  simp only [xor_cancel_left_nat, Nat.xor_self] at h2
  have hp := Nat.two_pow_pos j
  omega

set_option maxHeartbeats 1000000 in
/-- Claim C8: for every frame produced by crc_write on a byte buffer of
length at least 3 and for every single-bit flip — any byte position in the
frame, the two CRC positions included, and any bit inside that byte —
crc_check on the modified frame returns false. -/
theorem claim_C8 (buf : List Nat) (h3 : 3 ≤ buf.length) (hb : ∀ x ∈ buf, x < 256)
    (i k : Nat) (hi : i < buf.length) (hk : k < 8) :
    crc_check ((crc_write buf).set i ((crc_write buf).getD i 0 ^^^ 2 ^ k)) = false := by
  have hlen : (crc_write buf).length = buf.length := crc_write_length buf
  have hdata : ∀ x ∈ buf.take (buf.length - 2), x < 65536 := fun x hx => by
    have := hb x (List.take_subset _ _ hx)
    omega
  have hclt : modbus (buf.take (buf.length - 2)) < 65536 := modbus_lt _ hdata
  have hk256 : 2 ^ k < 256 := by
    calc 2 ^ k < 2 ^ 8 := Nat.pow_lt_pow_right (by norm_num) hk
      _ = 256 := by norm_num
  rw [← Bool.not_eq_true]
  intro htrue
  have hglen : ((crc_write buf).set i ((crc_write buf).getD i 0 ^^^ 2 ^ k)).length
      = buf.length := by rw [List.length_set, hlen]
  rcases (by omega : i < buf.length - 2 ∨ i = buf.length - 2 ∨ i = buf.length - 1)
    with hcase | hcase | hcase
  · -- the flipped bit sits in the data region: the recomputed CRC changes,
    -- the stored CRC bytes do not, so the comparison fails
    have hv : (crc_write buf).getD i 0 = buf.getD i 0 := crc_write_getD_data buf i hcase
    have hd256 : buf.getD i 0 < 256 := getD_lt_of_forall buf i 256 hb hi
    have hflt : buf.getD i 0 ^^^ 2 ^ k < 65536 :=
      xor_lt_65536 (by omega) (by omega)
    have htake : ((crc_write buf).set i ((crc_write buf).getD i 0 ^^^ 2 ^ k)).take
        (buf.length - 2) = (buf.take (buf.length - 2)).set i (buf.getD i 0 ^^^ 2 ^ k) := by
      rw [hv, take_set_comm _ _ _ _ hcase, crc_write_take]
    have hmodne : modbus ((buf.take (buf.length - 2)).set i (buf.getD i 0 ^^^ 2 ^ k))
        ≠ modbus (buf.take (buf.length - 2)) := by
      apply modbus_set_ne _ _ _ hdata hflt
      · rw [List.length_take]
        omega
      · rw [getD_take_of_lt _ _ _ _ hcase]
        exact xor_two_pow_ne _ k
    have hset1 : ((crc_write buf).set i ((crc_write buf).getD i 0 ^^^ 2 ^ k)).getD
        (buf.length - 2) 0 = modbus (buf.take (buf.length - 2)) % 256 := by
      rw [getD_set_ne _ _ _ _ _ (by omega), crc_write_getD_sub2 _ (by omega),
        swap16_div _ hclt]
    have hset2 : ((crc_write buf).set i ((crc_write buf).getD i 0 ^^^ 2 ^ k)).getD
        (buf.length - 1) 0 = modbus (buf.take (buf.length - 2)) / 256 := by
      rw [getD_set_ne _ _ _ _ _ (by omega), crc_write_getD_sub1 _ (by omega),
        swap16_mod _ hclt]
    have hiff := (crc_check_iff _ (by
      rw [hglen, htake]
      exact modbus_lt _ (forall_lt_of_set _ _ _ _ hdata hflt))).mp htrue
    rw [hglen, htake] at hiff
    rcases hiff with ⟨h1, h2⟩
    rw [hset1] at h1
    rw [hset2] at h2
    have hmlt : modbus ((buf.take (buf.length - 2)).set i (buf.getD i 0 ^^^ 2 ^ k))
        < 65536 := modbus_lt _ (forall_lt_of_set _ _ _ _ hdata hflt)
    exact hmodne (by omega)
  · -- the flipped bit sits in the stored CRC byte at n-2
    subst hcase
    have hv : (crc_write buf).getD (buf.length - 2) 0
        = modbus (buf.take (buf.length - 2)) % 256 := by
      rw [crc_write_getD_sub2 _ (by omega), swap16_div _ hclt]
    have htake : ((crc_write buf).set (buf.length - 2)
        ((crc_write buf).getD (buf.length - 2) 0 ^^^ 2 ^ k)).take (buf.length - 2)
        = buf.take (buf.length - 2) := by
      rw [take_set_of_le _ _ _ _ (le_refl _), crc_write_take]
    have hiff := (crc_check_iff _ (by rw [hglen, htake]; exact hclt)).mp htrue
    rw [hglen, htake] at hiff
    have hset1 : ((crc_write buf).set (buf.length - 2)
        ((crc_write buf).getD (buf.length - 2) 0 ^^^ 2 ^ k)).getD (buf.length - 2) 0
        = (crc_write buf).getD (buf.length - 2) 0 ^^^ 2 ^ k :=
      getD_set_self _ _ _ _ (by omega)
    rw [hset1, hv] at hiff
    exact xor_two_pow_ne _ k hiff.1
  · -- the flipped bit sits in the stored CRC byte at n-1
    subst hcase
    have hv : (crc_write buf).getD (buf.length - 1) 0
        = modbus (buf.take (buf.length - 2)) / 256 := by
      rw [crc_write_getD_sub1 _ (by omega), swap16_mod _ hclt]
    have htake : ((crc_write buf).set (buf.length - 1)
        ((crc_write buf).getD (buf.length - 1) 0 ^^^ 2 ^ k)).take (buf.length - 2)
        = buf.take (buf.length - 2) := by
      rw [take_set_of_le _ _ _ _ (by omega), crc_write_take]
    have hiff := (crc_check_iff _ (by rw [hglen, htake]; exact hclt)).mp htrue
    rw [hglen, htake] at hiff
    have hset2 : ((crc_write buf).set (buf.length - 1)
        ((crc_write buf).getD (buf.length - 1) 0 ^^^ 2 ^ k)).getD (buf.length - 1) 0
        = (crc_write buf).getD (buf.length - 1) 0 ^^^ 2 ^ k :=
      getD_set_self _ _ _ _ (by omega)
    rw [hset2, hv] at hiff
    exact xor_two_pow_ne _ k hiff.2

set_option maxRecDepth 8000 in
theorem claim_C8_witness :
    (3 ≤ ([1, 4, 0, 0, 0, 10, 0, 0] : List Nat).length ∧
        (∀ x ∈ ([1, 4, 0, 0, 0, 10, 0, 0] : List Nat), x < 256) ∧
        2 < ([1, 4, 0, 0, 0, 10, 0, 0] : List Nat).length ∧ 0 < 8) ∧
      crc_check ((crc_write [1, 4, 0, 0, 0, 10, 0, 0]).set 2
        ((crc_write [1, 4, 0, 0, 0, 10, 0, 0]).getD 2 0 ^^^ 2 ^ 0)) = false :=
  ⟨⟨by decide, by decide, by decide, by decide⟩,
    claim_C8 [1, 4, 0, 0, 0, 10, 0, 0] (by decide) (by decide) 2 0 (by decide) (by decide)⟩

theorem shiftLeft_or_distrib (x y k : Nat) : (x ||| y) <<< k = x <<< k ||| y <<< k := by
  apply Nat.eq_of_testBit_eq
  intro i
  simp only [Nat.testBit_shiftLeft, Nat.testBit_or]
  cases decide (k ≤ i) <;> simp

theorem shiftLeft_shiftLeft_nat (x m n : Nat) : x <<< m <<< n = x <<< (m + n) := by
  simp only [Nat.shiftLeft_eq, Nat.pow_add]
  ring

theorem or_assembly (a b c d : Nat) :
    a <<< 8 ||| b <<< 0 ||| c <<< 24 ||| d <<< 16
      = (c <<< 8 ||| d) <<< 16 ||| (a <<< 8 ||| b <<< 0) := by
  rw [shiftLeft_or_distrib, shiftLeft_shiftLeft_nat]
  show _ = c <<< 24 ||| d <<< 16 ||| (a <<< 8 ||| b <<< 0)
  rw [Nat.or_assoc, Nat.or_assoc, Nat.or_comm (c <<< 24 ||| d <<< 16)]
  rw [Nat.or_assoc]

/-- Claim C9: decoding a 25-byte measurement response is a pure function of
the bytes (it ignores the previous record contents entirely, so it is
deterministic), each multi-byte field equals the formula stated by the
specification — voltage, frequency, power factor and the alarm word are
single big-endian 16-bit words, while current, power and energy combine two
consecutive big-endian words as second <<< 16 ||| first — with divisors 10,
1000, 10, 1000, 10, 100, the alarm flag is set exactly when the word at
offsets 21-22 is nonzero, and the example voltage bytes 0x09 0x08 decode to
2312/10 = 231.2 volts. -/
theorem claim_C9 (buf : List Nat) (m m₂ : Measurement) :
    result_convert buf m = result_convert buf m₂ ∧
    (result_convert buf m).voltage = (specWord16 buf 3 : ℚ) / 10 ∧
    (result_convert buf m).current = (spec32 buf 5 7 : ℚ) / 1000 ∧
    (result_convert buf m).power = (spec32 buf 9 11 : ℚ) / 10 ∧
    (result_convert buf m).energy = (spec32 buf 13 15 : ℚ) / 1000 ∧
    (result_convert buf m).frequency = (specWord16 buf 17 : ℚ) / 10 ∧
    (result_convert buf m).pf = (specWord16 buf 19 : ℚ) / 100 ∧
    ((result_convert buf m).alarm = true ↔ specWord16 buf 21 ≠ 0) ∧
    (result_convert vExample m).voltage = 2312 / 10 := by
  refine ⟨rfl, ?_, ?_, ?_, ?_, ?_, ?_, ?_, ?_⟩
  · simp [result_convert, specWord16]
  · exact congrArg (fun z : Nat => ((z : ℚ) / 1000)) (or_assembly _ _ _ _)
  · exact congrArg (fun z : Nat => ((z : ℚ) / 10)) (or_assembly _ _ _ _)
  · exact congrArg (fun z : Nat => ((z : ℚ) / 1000)) (or_assembly _ _ _ _)
  · simp [result_convert, specWord16]
  · simp [result_convert, specWord16]
  · simp [result_convert, specWord16, bne_iff_ne]
  · show ((vExample.getD 3 0 <<< 8 ||| vExample.getD 4 0 : Nat) : ℚ) / 10 = 2312 / 10
    rw [show (vExample.getD 3 0 <<< 8 ||| vExample.getD 4 0 : Nat) = 2312 by decide]
    norm_num

/-! Behaviour of the two read loops. -/

theorem collectBytes_zero {RE : Type} (rs : List (ReadEvent RE)) :
    collectBytes rs 0 = .ok [] := by
  cases rs with
  | nil => rfl
  | cons a rs => cases a <;> rfl

theorem collectBytes_ok_length {RE : Type} : ∀ (reads : List (ReadEvent RE)) (n : Nat)
    (l : List Nat), collectBytes reads n = RBResult.ok l → l.length = n
  | rs, 0, l, h => by
    rw [collectBytes_zero] at h
    cases h
    rfl
  | [], n + 1, l, h => by
    rw [show collectBytes ([] : List (ReadEvent RE)) (n + 1) = RBResult.hang from rfl] at h
    cases h
  | .wouldBlock :: rs, n + 1, l, h =>
    collectBytes_ok_length rs (n + 1) l
      (by rwa [show collectBytes (ReadEvent.wouldBlock :: rs) (n + 1)
        = collectBytes rs (n + 1) from rfl] at h)
  | .errE e :: rs, n + 1, l, h => by
    rw [show collectBytes (ReadEvent.errE e :: rs) (n + 1)
      = (RBResult.err e : RBResult RE) from rfl] at h
    cases h
  | .byte b :: rs, n + 1, l, h => by
    rw [show collectBytes (ReadEvent.byte b :: rs) (n + 1)
      = (match collectBytes rs n with
         | .ok l2 => .ok (b :: l2)
         | r => r) from rfl] at h
    cases hc : collectBytes rs n with
    | ok l2 =>
      rw [hc] at h
      cases h
      simp [collectBytes_ok_length rs n l2 hc]
    | err e => rw [hc] at h; cases h
    | hang => rw [hc] at h; cases h

theorem collectBytes_err {RE : Type} : ∀ (reads : List (ReadEvent RE)) (n : Nat) (e : RE),
    collectBytes reads n = RBResult.err e →
    ∃ pre rest, reads = pre ++ ReadEvent.errE e :: rest ∧
      (∀ ev ∈ pre, ∀ e₂, ev ≠ ReadEvent.errE e₂) ∧
      (pre.filter isByteEv).length < n
  | rs, 0, e, h => by
    rw [collectBytes_zero] at h
    cases h
  | [], n + 1, e, h => by
    rw [show collectBytes ([] : List (ReadEvent RE)) (n + 1) = RBResult.hang from rfl] at h
    cases h
  | .wouldBlock :: rs, n + 1, e, h => by
    obtain ⟨pre, rest, h1, h2, h3⟩ := collectBytes_err rs (n + 1) e
      (by rwa [show collectBytes (ReadEvent.wouldBlock :: rs) (n + 1)
        = collectBytes rs (n + 1) from rfl] at h)
    refine ⟨.wouldBlock :: pre, rest, by simp [h1], ?_, by simpa [isByteEv] using h3⟩
    intro ev hev e₂
    rcases List.mem_cons.mp hev with rfl | hev
    · simp
    · exact h2 ev hev e₂
  | .errE e₀ :: rs, n + 1, e, h => by
    rw [show collectBytes (ReadEvent.errE e₀ :: rs) (n + 1)
      = (RBResult.err e₀ : RBResult RE) from rfl] at h
    cases h
    exact ⟨[], rs, rfl, by simp, by simp⟩
  | .byte b :: rs, n + 1, e, h => by
    rw [show collectBytes (ReadEvent.byte b :: rs) (n + 1)
      = (match collectBytes rs n with
         | .ok l2 => .ok (b :: l2)
         | r => r) from rfl] at h
    cases hc : collectBytes rs n with
    | ok l2 => rw [hc] at h; cases h
    | hang => rw [hc] at h; cases h
    | err e₂ =>
      rw [hc] at h
      cases h
      obtain ⟨pre, rest, h1, h2, h3⟩ := collectBytes_err rs n e hc
      refine ⟨.byte b :: pre, rest, by simp [h1], ?_, by simpa [isByteEv] using h3⟩
      intro ev hev e₃
      rcases List.mem_cons.mp hev with rfl | hev
      · simp
      · exact h2 ev hev e₃

theorem readTimed_zero {RE : Type} (ts : List Bool) (rs : List (ReadEvent RE)) :
    readTimed ts rs 0 = (.ok [], 0) := by
  cases ts with
  | nil => cases rs with
    | nil => rfl
    | cons a rs => cases a <;> rfl
  | cons t ts => cases t <;> cases rs with
    | nil => rfl
    | cons a rs => cases a <;> rfl

theorem readTimed_ne_hang {RE : Type} : ∀ (ts : List Bool) (rs : List (ReadEvent RE))
    (n : Nat), (readTimed ts rs n).1 ≠ .hang
  | ts, rs, 0 => by rw [readTimed_zero]; simp
  | [], rs, n + 1 => by
    rw [show readTimed ([] : List Bool) rs (n + 1) = ((.ok [], 1) : RBResult RE × Nat)
      from by cases rs with | nil => rfl | cons a rs => cases a <;> rfl]
    simp
  | true :: ts, rs, n + 1 => by
    rw [show readTimed (true :: ts) rs (n + 1) = ((.ok [], 1) : RBResult RE × Nat)
      from by cases rs with | nil => rfl | cons a rs => cases a <;> rfl]
    simp
  | false :: ts, [], n + 1 => by
    rw [show (readTimed (false :: ts) ([] : List (ReadEvent RE)) (n + 1)).1
      = (readTimed ts ([] : List (ReadEvent RE)) (n + 1)).1 from rfl]
    exact readTimed_ne_hang ts [] (n + 1)
  | false :: ts, .wouldBlock :: rs, n + 1 => by
    rw [show (readTimed (false :: ts) (ReadEvent.wouldBlock :: rs) (n + 1)).1
      = (readTimed ts rs (n + 1)).1 from rfl]
    exact readTimed_ne_hang ts rs (n + 1)
  | false :: ts, .errE e :: rs, n + 1 => by
    rw [show (readTimed (false :: ts) (ReadEvent.errE e :: rs) (n + 1)).1
      = (RBResult.err e : RBResult RE) from rfl]
    simp
  | false :: ts, .byte b :: rs, n + 1 => by
    rw [show (readTimed (false :: ts) (ReadEvent.byte b :: rs) (n + 1)).1
      = (match (readTimed ts rs n).1 with
         | .ok l => .ok (b :: l)
         | x => x) from rfl]
    cases hc : (readTimed ts rs n).1 with
    | ok l => simp
    | err e => simp
    | hang => exact absurd hc (readTimed_ne_hang ts rs n)

theorem readTimed_ok_length {RE : Type} : ∀ (ts : List Bool) (rs : List (ReadEvent RE))
    (n : Nat) (l : List Nat), (readTimed ts rs n).1 = .ok l →
    l.length ≤ n ∧ l.length ≤ ts.count false
  | ts, rs, 0, l, h => by
    rw [readTimed_zero] at h
    cases h
    simp
  | [], rs, n + 1, l, h => by
    rw [show readTimed ([] : List Bool) rs (n + 1) = ((.ok [], 1) : RBResult RE × Nat)
      from by cases rs with | nil => rfl | cons a rs => cases a <;> rfl] at h
    cases h
    simp
  | true :: ts, rs, n + 1, l, h => by
    rw [show readTimed (true :: ts) rs (n + 1) = ((.ok [], 1) : RBResult RE × Nat)
      from by cases rs with | nil => rfl | cons a rs => cases a <;> rfl] at h
    cases h
    simp
  | false :: ts, [], n + 1, l, h => by
    have ih := readTimed_ok_length ts ([] : List (ReadEvent RE)) (n + 1) l
      (by rwa [show (readTimed (false :: ts) ([] : List (ReadEvent RE)) (n + 1)).1
        = (readTimed ts ([] : List (ReadEvent RE)) (n + 1)).1 from rfl] at h)
    refine ⟨ih.1, ?_⟩
    have := ih.2
    rw [List.count_cons_self]
    omega
  | false :: ts, .wouldBlock :: rs, n + 1, l, h => by
    have ih := readTimed_ok_length ts rs (n + 1) l
      (by rwa [show (readTimed (false :: ts) (ReadEvent.wouldBlock :: rs) (n + 1)).1
        = (readTimed ts rs (n + 1)).1 from rfl] at h)
    refine ⟨ih.1, ?_⟩
    have := ih.2
    rw [List.count_cons_self]
    omega
  | false :: ts, .errE e :: rs, n + 1, l, h => by
    rw [show (readTimed (false :: ts) (ReadEvent.errE e :: rs) (n + 1)).1
      = (RBResult.err e : RBResult RE) from rfl] at h
    cases h
  | false :: ts, .byte b :: rs, n + 1, l, h => by
    rw [show (readTimed (false :: ts) (ReadEvent.byte b :: rs) (n + 1)).1
      = (match (readTimed ts rs n).1 with
         | .ok l2 => .ok (b :: l2)
         | x => x) from rfl] at h
    cases hc : (readTimed ts rs n).1 with
    | ok l2 =>
      rw [hc] at h
      cases h
      have ih := readTimed_ok_length ts rs n l2 hc
      have h2 := ih.2
      rw [List.count_cons_self]
      simp only [List.length_cons]
      omega
    | err e => rw [hc] at h; cases h
    | hang => rw [hc] at h; cases h

/-! Facts about one full exchange. -/

theorem communicate_short {WE RE : Type} (req : List Nat) (respLen : Nat)
    (t : Option (List Bool)) (w : Wire WE RE) (rs : List (ReadEvent RE)) (l : List Nat)
    (hd : drain w.reads = .ok rs) (hw : w.writeOutcome = none)
    (hr : (read_blocking t rs respLen).1 = .ok l) (hshort : l.length < respLen) :
    communicate req respLen t w = .err .TimedOut := by
  simp only [communicate, hd, hw, hr]
  rw [if_pos hshort]

theorem communicate_ne_illegal {WE RE : Type} (req : List Nat) (respLen : Nat)
    (t : Option (List Bool)) (w : Wire WE RE) :
    communicate req respLen t w ≠ .err .IllegalAddress := by
  unfold communicate
  split
  · simp
  · split
    · simp
    · split
      · simp
      · simp
      · split
        · simp
        · split
          · simp
          · split
            · simp
            · split
              · simp
              · simp

/-- Claim C1: no operation mutates the handle address or the caller's
measurement record on any error outcome.  The read operation leaves the
record untouched on every error and, on success, overwrites all seven fields
as a function of the response alone (the previous record contents are
irrelevant); get_threshold, get_addr, set_threshold and reset_energy never
touch the stored address; set_addr keeps the old address on every error and
adopts the new one only on success. -/
theorem claim_C1 {WE RE : Type} (addr a thr : Nat) (m : Measurement)
    (t : Option (List Bool)) (w : Wire WE RE) :
    (∀ e, (Pzem.read addr m t w).1 = .err e →
      (Pzem.read addr m t w).2.1 = addr ∧ (Pzem.read addr m t w).2.2 = m) ∧
    (∀ m₂, (Pzem.read addr m t w).1 = .ok () →
      (Pzem.read addr m t w).2.2 = (Pzem.read addr m₂ t w).2.2) ∧
    (Pzem.get_threshold addr t w).2 = addr ∧
    (Pzem.get_addr addr t w).2 = addr ∧
    (Pzem.set_threshold addr thr t w).2 = addr ∧
    (∀ e, (Pzem.set_addr addr a t w).1 = .err e → (Pzem.set_addr addr a t w).2 = addr) ∧
    (Pzem.reset_energy addr t w).2 = addr := by
  refine ⟨?_, ?_, ?_, ?_, ?_, ?_, ?_⟩
  · intro e h
    simp only [Pzem.read] at h ⊢
    cases hc : communicate (crc_write [addr, CMD_READ, 0, 0,
        (REG_COUNT >>> 8) % 256, (REG_COUNT >>> 0) % 256, 0, 0]) 25 t w <;>
      simp_all
  · intro m₂ h
    simp only [Pzem.read] at h ⊢
    cases hc : communicate (crc_write [addr, CMD_READ, 0, 0,
        (REG_COUNT >>> 8) % 256, (REG_COUNT >>> 0) % 256, 0, 0]) 25 t w <;>
      first
      | rfl
      | simp_all
  · simp only [Pzem.get_threshold]
    cases hc : communicate (crc_write [addr, CMD_READ_PARAM,
        (PARAM_THRESHOLD >>> 8) % 256, (PARAM_THRESHOLD >>> 0) % 256, 0, 1, 0, 0]) 7 t w <;>
      simp
  · simp only [Pzem.get_addr]
    cases hc : communicate (crc_write [addr, CMD_READ_PARAM,
        (PARAM_ADDR >>> 8) % 256, (PARAM_ADDR >>> 0) % 256, 0, 1, 0, 0]) 7 t w <;>
      simp
  · simp only [Pzem.set_threshold]
    cases hc : communicate (crc_write [addr, CMD_WRITE_PARAM,
        (PARAM_THRESHOLD >>> 8) % 256, (PARAM_THRESHOLD >>> 0) % 256,
        (thr >>> 8) % 256, (thr >>> 0) % 256, 0, 0]) 8 t w <;>
      simp
  · intro e h
    simp only [Pzem.set_addr] at h ⊢
    by_cases hrange : a < ADDR_MIN ∨ ADDR_MAX < a
    · rw [if_pos hrange]
    · rw [if_neg hrange] at h ⊢
      cases hc : communicate (crc_write [addr, CMD_WRITE_PARAM,
          (PARAM_ADDR >>> 8) % 256, (PARAM_ADDR >>> 0) % 256, 0, a, 0, 0]) 8 t w <;>
        simp_all
  · simp only [Pzem.reset_energy]
    cases hc : communicate (crc_write [addr, CMD_RESET, 0, 0]) 4 t w <;>
      simp

set_option maxRecDepth 8000 in
theorem claim_C1_witness :
    ((Pzem.read 1 Measurement.default (some [true])
        (⟨none, []⟩ : Wire Unit Unit)).1 = .err .TimedOut) ∧
      (Pzem.read 1 Measurement.default (some [true])
          (⟨none, []⟩ : Wire Unit Unit)).2.1 = 1 ∧
        (Pzem.read 1 Measurement.default (some [true])
          (⟨none, []⟩ : Wire Unit Unit)).2.2 = Measurement.default :=
  ⟨by decide,
    (claim_C1 1 0 0 Measurement.default (some [true])
      (⟨none, []⟩ : Wire Unit Unit)).1 Error.TimedOut (by decide)⟩

/-- Claim C2: construction with an explicit address succeeds exactly for the
bytes in 0x01..0xF7 together with 0xF8, fails with IllegalAddress for every
other byte (the constructor performs no I/O at all: it is a pure function of
the address), and construction with the address omitted uses 0xF8 and
succeeds. -/
theorem claim_C2 (WE RE : Type) (a : Nat) (ha : a < 256) :
    ((1 ≤ a ∧ a ≤ 0xf7) ∨ a = 0xf8 → Pzem.new WE RE (some a) = .ok a) ∧
    (¬ ((1 ≤ a ∧ a ≤ 0xf7) ∨ a = 0xf8) →
      Pzem.new WE RE (some a) = .error .IllegalAddress) ∧
    Pzem.new WE RE none = .ok 0xf8 := by
  refine ⟨fun h => ?_, fun h => ?_, ?_⟩ <;>
    simp only [Pzem.new, Option.getD_some, Option.getD_none,
      ADDR_DEFAULT, ADDR_MIN, ADDR_MAX]
  · rw [if_neg (by omega)]
  · rw [if_pos (by omega)]
  · rw [if_neg (by omega)]

theorem claim_C2_witness :
    Pzem.new Unit Unit (some 5) = .ok 5 ∧
      Pzem.new Unit Unit (some 0) = .error .IllegalAddress ∧
      Pzem.new Unit Unit (some 0xf8) = .ok 0xf8 :=
  ⟨(claim_C2 Unit Unit 5 (by decide)).1 (by decide),
    (claim_C2 Unit Unit 0 (by decide)).2.1 (by decide),
    (claim_C2 Unit Unit 0xf8 (by decide)).1 (by decide)⟩

/-- Claim C3, counterexample: the claim asserts that every address in
0x01..0xF7 together with 0xF8 passes the pre-transmit check of set_addr, but
set_addr compares only against ADDR_MIN..ADDR_MAX and therefore rejects the
universal address 0xF8 with IllegalAddress. -/
theorem claim_C3_counterexample :
    Pzem.set_addr 1 0xf8 none (⟨none, []⟩ : Wire Unit Unit)
      = (.err .IllegalAddress, 1) := by
  decide

/-- Claim C3 as amended: set_addr validates the new address against
0x01..0xF7 only (stricter than construction: the universal address 0xF8 is
rejected).  For every in-range value the call can never fail with
IllegalAddress; for every out-of-range value, 0xF8 included, it returns
IllegalAddress with the handle address unchanged, and the result is the very
same for every wire state and timeout — no byte is drained, written or read
before the check. -/
theorem claim_C3_amended {WE RE : Type} (addr a : Nat) (t : Option (List Bool))
    (w : Wire WE RE) :
    (1 ≤ a ∧ a ≤ 0xf7 → (Pzem.set_addr addr a t w).1 ≠ .err .IllegalAddress) ∧
    (¬ (1 ≤ a ∧ a ≤ 0xf7) → Pzem.set_addr addr a t w = (.err .IllegalAddress, addr)) := by
  constructor
  · intro hrange
    simp only [Pzem.set_addr, ADDR_MIN, ADDR_MAX]
    rw [if_neg (by omega)]
    cases hc : communicate (crc_write [addr, CMD_WRITE_PARAM,
        (PARAM_ADDR >>> 8) % 256, (PARAM_ADDR >>> 0) % 256, 0, a, 0, 0]) 8 t w with
    | ok r => simp
    | hang => simp
    | err e =>
      intro hbad
      have he : e = Error.IllegalAddress := by simpa using hbad
      apply communicate_ne_illegal (crc_write [addr, CMD_WRITE_PARAM,
        (PARAM_ADDR >>> 8) % 256, (PARAM_ADDR >>> 0) % 256, 0, a, 0, 0]) 8 t w
      rw [hc, he]
  · intro hrange
    simp only [Pzem.set_addr, ADDR_MIN, ADDR_MAX]
    rw [if_pos (by omega)]

theorem claim_C3_witness :
    ((Pzem.set_addr 1 5 none (⟨none, []⟩ : Wire Unit Unit)).1
        ≠ .err .IllegalAddress) ∧
      Pzem.set_addr 1 0 none (⟨none, []⟩ : Wire Unit Unit)
        = (.err .IllegalAddress, 1) :=
  ⟨(claim_C3_amended 1 5 none (⟨none, []⟩ : Wire Unit Unit)).1 (by decide),
    (claim_C3_amended 1 0 none (⟨none, []⟩ : Wire Unit Unit)).2 (by decide)⟩

/-- Claim C4: with a timeout supplied, the read loop polls the countdown
before every single-byte read attempt — the loop can never block forever, a
successful return carries at most as many bytes as not-yet-expired polls, an
expired first poll stops immediately with zero further bytes, and the result
is an Ok count (never a distinct timeout error) that may be short; whenever
the read phase of an exchange delivers fewer bytes than the expected response
length, communicate turns that into the TimedOut error. -/
theorem claim_C4 {WE RE : Type} (ts : List Bool) (rs : List (ReadEvent RE)) (n : Nat) :
    (readTimed ts rs n).1 ≠ .hang ∧
    (∀ l, (readTimed ts rs n).1 = .ok l → l.length ≤ n ∧ l.length ≤ ts.count false) ∧
    (readTimed (true :: ts) rs (n + 1)).1 = .ok [] ∧
    (∀ (req : List Nat) (respLen : Nat) (t : Option (List Bool)) (w : Wire WE RE)
      (rs₂ : List (ReadEvent RE)) (l : List Nat),
      drain w.reads = .ok rs₂ → w.writeOutcome = none →
      (read_blocking t rs₂ respLen).1 = .ok l → l.length < respLen →
      communicate req respLen t w = .err .TimedOut) := by
  refine ⟨readTimed_ne_hang ts rs n, fun l h => readTimed_ok_length ts rs n l h, ?_, ?_⟩
  · cases rs with
    | nil => rfl
    | cons a rs => cases a <;> rfl
  · intro req respLen t w rs₂ l hd hw hr hshort
    exact communicate_short req respLen t w rs₂ l hd hw hr hshort

set_option maxRecDepth 8000 in
theorem claim_C4_witness :
    ((readTimed [false, true] ([ReadEvent.byte 7] : List (ReadEvent Unit)) 25).1
        = .ok [7]) ∧
      communicate [1, 2] 25 (some [false, true])
        (⟨none, [.wouldBlock, .byte 7]⟩ : Wire Unit Unit) = .err .TimedOut :=
  ⟨by decide,
    (claim_C4 [] ([] : List (ReadEvent Unit)) 0).2.2.2 [1, 2] 25 (some [false, true])
      (⟨none, [.wouldBlock, .byte 7]⟩ : Wire Unit Unit) [.byte 7] [7]
      rfl rfl (by decide) (by decide)⟩

/-- Claim C5: when the full expected number of response bytes is received and
the first two response bytes (address and function code) differ from the
first two request bytes, communicate fails with PzemError.  No assumption on
the response checksum is needed, so the result holds in particular for a
response whose embedded CRC is valid. -/
theorem claim_C5 {WE RE : Type} (req : List Nat) (respLen : Nat)
    (t : Option (List Bool)) (w : Wire WE RE) (rs : List (ReadEvent RE)) (l : List Nat)
    (hd : drain w.reads = .ok rs) (hw : w.writeOutcome = none)
    (hr : (read_blocking t rs respLen).1 = .ok l) (hfull : ¬ l.length < respLen)
    (hhd : l.getD 0 0 ≠ req.getD 0 0 ∨ l.getD 1 0 ≠ req.getD 1 0) :
    communicate req respLen t w = .err .PzemError := by
  simp only [communicate, hd, hw, hr]
  rw [if_neg hfull, if_pos hhd]

set_option maxRecDepth 8000 in
theorem claim_C5_witness :
    crc_check (crc_write [2, 4, 0, 0]) = true ∧
      communicate (crc_write [1, 4, 0, 0, 0, 10, 0, 0]) 4 none
        (⟨none, .wouldBlock :: (crc_write [2, 4, 0, 0]).map .byte⟩ : Wire Unit Unit)
        = .err .PzemError :=
  ⟨by decide,
    claim_C5 (crc_write [1, 4, 0, 0, 0, 10, 0, 0]) 4 none
      (⟨none, .wouldBlock :: (crc_write [2, 4, 0, 0]).map .byte⟩ : Wire Unit Unit)
      ((crc_write [2, 4, 0, 0]).map .byte) (crc_write [2, 4, 0, 0])
      rfl rfl (by decide) (by decide) (by decide)⟩

/-- Claim C10: with no timeout supplied, read_blocking performs zero timer
method invocations (neither start nor wait, so the panicking NoTimeout
stand-in with its unreachable branches can never fire), a successful return
carries exactly the requested number of bytes, and an error return is the
first hard read error of the line: the events before it contain no error and
fewer bytes than requested. -/
theorem claim_C10 {RE : Type} (reads : List (ReadEvent RE)) (n : Nat) :
    (read_blocking none reads n).2 = 0 ∧
    (∀ l, (read_blocking none reads n).1 = .ok l → l.length = n) ∧
    (∀ e, (read_blocking none reads n).1 = .err e →
      ∃ pre rest, reads = pre ++ ReadEvent.errE e :: rest ∧
        (∀ ev ∈ pre, ∀ e₂, ev ≠ ReadEvent.errE e₂) ∧
        (pre.filter isByteEv).length < n) := by
  refine ⟨rfl, ?_, ?_⟩
  · intro l h
    exact collectBytes_ok_length reads n l h
  · intro e h
    exact collectBytes_err reads n e h

theorem claim_C10_witness :
    ((read_blocking none ([.byte 1, .byte 2] : List (ReadEvent Unit)) 2).1
          = .ok [1, 2] →
        ([1, 2] : List Nat).length = 2) ∧
      (∃ pre rest,
        ([.byte 1, .errE ()] : List (ReadEvent Unit))
            = pre ++ ReadEvent.errE () :: rest ∧
          (∀ ev ∈ pre, ∀ e₂, ev ≠ ReadEvent.errE e₂) ∧
          (pre.filter isByteEv).length < 5) :=
  ⟨fun h => (claim_C10 ([.byte 1, .byte 2] : List (ReadEvent Unit)) 2).2.1 [1, 2] h,
    (claim_C10 ([.byte 1, .errE ()] : List (ReadEvent Unit)) 5).2.2 () (by decide)⟩

end Pzem004t
